import Mathlib

/-!
Shallow embedding of `src/spl_meter.py` (Pimoroni Enviro sound-pressure
meter) and verification of its specification claims.

Floating-point values of the source are modelled as real numbers; the
constant literals used to derive the frequency-bin ranges are modelled
exactly as rationals so that the derived ranges are computable.  Python's
built-in `round` (banker's rounding, ties to even) is modelled by
`pyRound` on the reals and `pyRoundQ` on the rationals; `round(x, 2)` is
`round2`.  A Python expression that raises (such as `math.log` on a
non-positive argument) is modelled as `Option`, with `none` standing for
the raised exception.
-/

namespace SplMeter

noncomputable section RealModel

/-- Python `round(x)` on a real number: round half to even. -/
def pyRound (x : ℝ) : ℤ :=
  if Int.fract x = 1/2 then (if 2 ∣ ⌊x⌋ then ⌊x⌋ else ⌊x⌋ + 1) else round x

/-- Python `round(x, 2)`: round to two decimal places. -/
def round2 (x : ℝ) : ℝ := (pyRound (100 * x) : ℝ) / 100

end RealModel

/-- Python `round(q)` on an exact rational, computable (used for the
band-range constants that the source computes from numeric literals). -/
def pyRoundQ (q : ℚ) : ℤ :=
  if q - ⌊q⌋ = 1/2 then (if 2 ∣ ⌊q⌋ then ⌊q⌋ else ⌊q⌋ + 1) else ⌊q + 1/2⌋

theorem pyRound_intCast (n : ℤ) : pyRound (n : ℝ) = n := by
  unfold pyRound
  rw [Int.fract_intCast]
  norm_num

theorem pyRound_floor_le (x : ℝ) : ⌊x⌋ ≤ pyRound x := by
  unfold pyRound
  split_ifs with h1 h2
  · exact le_refl _
  · omega
  · rw [round_eq]
    exact Int.floor_mono (by linarith)

theorem pyRound_le_floor_add_one (x : ℝ) : pyRound x ≤ ⌊x⌋ + 1 := by
  unfold pyRound
  split_ifs with h1 h2
  · omega
  · omega
  · rw [round_eq]
    have hx : x < (⌊x⌋ : ℝ) + 1 := Int.lt_floor_add_one x
    have h3 : x + 1/2 < ((⌊x⌋ + 2 : ℤ) : ℝ) := by push_cast; linarith
    have h4 : ⌊x + 1/2⌋ < ⌊x⌋ + 2 := Int.floor_lt.mpr h3
    omega

theorem pyRound_eq_floor_of_fract_lt (x : ℝ) (h : Int.fract x < 1/2) :
    pyRound x = ⌊x⌋ := by
  unfold pyRound
  rw [if_neg (by linarith), round_eq]
  have hfl : (⌊x⌋ : ℝ) ≤ x := Int.floor_le x
  have hfr : Int.fract x = x - ⌊x⌋ := rfl
  apply Int.floor_eq_iff.mpr
  constructor
  · linarith
  · rw [hfr] at h
    linarith

theorem pyRound_eq_floor_add_one_of_fract_gt (x : ℝ) (h : 1/2 < Int.fract x) :
    pyRound x = ⌊x⌋ + 1 := by
  unfold pyRound
  rw [if_neg (by linarith), round_eq]
  have hfr : Int.fract x = x - ⌊x⌋ := rfl
  have hlt : x < (⌊x⌋ : ℝ) + 1 := Int.lt_floor_add_one x
  apply Int.floor_eq_iff.mpr
  constructor
  · push_cast
    rw [hfr] at h
    linarith
  · push_cast
    linarith

theorem pyRound_mono : Monotone pyRound := by
  intro x y hxy
  rcases lt_or_eq_of_le (Int.floor_mono hxy) with hf | hf
  · calc pyRound x ≤ ⌊x⌋ + 1 := pyRound_le_floor_add_one x
      _ ≤ ⌊y⌋ := by omega
      _ ≤ pyRound y := pyRound_floor_le y
  · have hfx : Int.fract x = x - ⌊x⌋ := rfl
    have hfy : Int.fract y = y - ⌊y⌋ := rfl
    have hfr : Int.fract x ≤ Int.fract y := by
      rw [hfx, hfy, hf]
      linarith
    rcases lt_trichotomy (Int.fract x) (1/2) with hx1 | hx1 | hx1
    · rw [pyRound_eq_floor_of_fract_lt x hx1, hf]
      exact pyRound_floor_le y
    · rcases lt_or_eq_of_le (hx1 ▸ hfr) with hy1 | hy1
      · rw [pyRound_eq_floor_add_one_of_fract_gt y hy1]
        have := pyRound_le_floor_add_one x
        omega
      · have hxy2 : x = y := by
          rw [hfx] at hx1
          rw [hfy] at hy1
          have : x - ⌊x⌋ = y - ⌊y⌋ := by rw [hx1, ← hy1]
          have hc : ((⌊x⌋ : ℤ) : ℝ) = ((⌊y⌋ : ℤ) : ℝ) := by rw [hf]
          linarith
        rw [hxy2]
    · have hy1 : 1/2 < Int.fract y := lt_of_lt_of_le hx1 hfr
      rw [pyRound_eq_floor_add_one_of_fract_gt x hx1,
        pyRound_eq_floor_add_one_of_fract_gt y hy1, hf]

theorem abs_pyRound_sub (x : ℝ) : |(pyRound x : ℝ) - x| ≤ 1/2 := by
  rcases lt_trichotomy (Int.fract x) (1/2) with h | h | h
  · rw [pyRound_eq_floor_of_fract_lt x h]
    have hfr : Int.fract x = x - ⌊x⌋ := rfl
    have h0 : (0:ℝ) ≤ Int.fract x := Int.fract_nonneg x
    rw [hfr] at h h0
    rw [abs_le]
    constructor <;> linarith
  · unfold pyRound
    rw [if_pos h]
    have hfr : Int.fract x = x - ⌊x⌋ := rfl
    rw [hfr] at h
    split_ifs with h2
    · rw [abs_le]
      constructor <;> linarith
    · push_cast
      rw [abs_le]
      constructor <;> linarith
  · rw [pyRound_eq_floor_add_one_of_fract_gt x h]
    have hfr : Int.fract x = x - ⌊x⌋ := rfl
    have h1 : Int.fract x < 1 := Int.fract_lt_one x
    rw [hfr] at h h1
    push_cast
    rw [abs_le]
    constructor <;> linarith

theorem round2_mono : Monotone round2 := by
  intro x y hxy
  unfold round2
  have h : pyRound (100 * x) ≤ pyRound (100 * y) := pyRound_mono (by linarith)
  have h2 : ((pyRound (100 * x) : ℤ) : ℝ) ≤ ((pyRound (100 * y) : ℤ) : ℝ) :=
    Int.cast_le.mpr h
  linarith

theorem abs_round2_sub (x : ℝ) : |round2 x - x| ≤ 1/200 := by
  unfold round2
  have h := abs_pyRound_sub (100 * x)
  have heq : (pyRound (100 * x) : ℝ) / 100 - x
      = ((pyRound (100 * x) : ℝ) - 100 * x) / 100 := by ring
  rw [heq, abs_div]
  rw [abs_of_pos (show (0:ℝ) < 100 by norm_num)]
  linarith

theorem round2_intCast (n : ℤ) : round2 (n : ℝ) = n := by
  unfold round2
  have h : (100 : ℝ) * n = ((100 * n : ℤ) : ℝ) := by push_cast; ring
  rw [h, pyRound_intCast]
  push_cast
  ring

theorem round2_natCast (n : ℕ) : round2 (n : ℝ) = n := by
  have h : ((n : ℤ) : ℝ) = (n : ℝ) := by push_cast; ring
  rw [← h, round2_intCast]

theorem round2_zero : round2 0 = 0 := by
  have h := round2_intCast 0
  simpa using h

/-! ## Program constants (`src/spl_meter.py`, lines 141-154, 174-179) -/

/-- Lower octave-band multiplier (source line 141, `lower_multiplier = 0.707`). -/
def lower_multiplier : ℚ := 707/1000

/-- Upper octave-band multiplier (source line 142, `upper_multiplier = 1.412`). -/
def upper_multiplier : ℚ := 1412/1000

/-- Calibration constant (source line 144, `max_spl = 450`). -/
def max_spl : ℕ := 450

/-- Source line 145: `log2_max_spl = math.log(max_spl, 2)`. -/
noncomputable def log2_max_spl : ℝ := Real.logb 2 (max_spl : ℝ)

/-- Left margin reserved for frequency labels (source line 147). -/
def l_margin : ℕ := 29

/-- Debounce interval in seconds (source line 153, `delay = 0.5`). -/
noncomputable def delay : ℝ := 1/2

/-- Octave-band centre frequencies, as listed in the source (line 174),
highest first. -/
def bands : List ℕ := [8000, 4000, 2000, 1000, 500, 250, 125, 63]

/-- Approximate A-weighting factors, index-aligned with `bands`
(source line 179). -/
noncomputable def a_weightings : List ℝ := [1.2, 1.6, 1.6, 1.0, 0.5, 0.1, 0.02, 0.003]

/-- The (start, end) bin-index pairs passed to the spectral estimator
(source line 180): `(round(b*lower_multiplier), round(b*upper_multiplier))`
for each `b` in `bands`. -/
def ranges : List (ℤ × ℤ) :=
  bands.map fun b => (pyRoundQ ((b : ℚ) * lower_multiplier), pyRoundQ ((b : ℚ) * upper_multiplier))

/-! ## Scale Mapper (source lines 192-197)

The log2 branch computes, for each weighted amplitude `s`,
`round((disp.width-l_margin) * ((max(0,math.log(s,2))*(100/log2_max_spl)/100)), 2)`;
`math.log(s, 2)` raises `ValueError` for `s <= 0`, which is modelled by
`Option` (`none` = exception).  The linear branch computes
`round((disp.width-l_margin) * (s/max_spl), 2)`.  Both are parameterised
here by the available width `w = disp.width - l_margin` (131 on the
ST7735 display used: width 160, margin 29). -/

/-- Python `math.log(s, 2)`: defined only for positive arguments. -/
noncomputable def mathLog2 (s : ℝ) : Option ℝ :=
  if 0 < s then some (Real.logb 2 s) else none

/-- One element of the log2-mode `bar_values` comprehension (source line 193). -/
noncomputable def barValueLog2 (w : ℕ) (s : ℝ) : Option ℝ :=
  (mathLog2 s).map fun l => round2 ((w : ℝ) * (max 0 l * (100 / log2_max_spl) / 100))

/-- One element of the linear-mode `bar_values` comprehension (source line 197). -/
noncomputable def barValueLinear (w : ℕ) (s : ℝ) : ℝ :=
  round2 ((w : ℝ) * (s / (max_spl : ℝ)))

/-! ## Band Weighter (source lines 184-185)

`weighted_amps.insert(b, round(2*(amps[b]*a_weightings[b]), 2))` inside a
loop over `b in range(8)` builds the list whose `b`-th element is
`round(2*(amps[b]*weights[b]), 2)`. -/

/-- The weighted-amplitude vector, parameterised by the raw band energies
and the weight vector. -/
noncomputable def weighted_amps (amps ws : Fin 8 → ℝ) : Fin 8 → ℝ :=
  fun b => round2 (2 * (amps b * ws b))

/-! ## Mode Controller (source lines 152-168)

State: `display_type` (a character, initially `'n'`) and `last_page`
(timestamp of the last accepted transition, initially `0`).  Each loop
iteration reads a proximity value and the current time; if the proximity
exceeds 1500 and more than `delay` seconds have passed since `last_page`,
the display type is toggled between `'n'` and `'l'` and `last_page` is
set to the current time. -/

structure MeterState where
  display_type : Char
  last_page : ℝ

/-- Initial state (source lines 152, 154). -/
noncomputable def initState : MeterState := ⟨'n', 0⟩

/-- The `if display_type == 'n' ... elif display_type == 'l' ...` toggle
(source lines 164-167). -/
def toggleDisplay (c : Char) : Char :=
  if c = 'n' then 'l' else if c = 'l' then 'n' else c

/-- One iteration of the proximity-handling code (source lines 160-168). -/
noncomputable def step (st : MeterState) (proximity : ℤ) (now : ℝ) : MeterState :=
  if 1500 < proximity ∧ delay < now - st.last_page then
    ⟨toggleDisplay st.display_type, now⟩
  else st

/-- Folding `step` over a trace of (proximity, time) readings. -/
noncomputable def runTrace (st : MeterState) : List (ℤ × ℝ) → MeterState
  | [] => st
  | e :: rest => runTrace (step st e.1 e.2) rest

/-- Whether the `else` ("Oops" screen) branch of the display dispatch
(source lines 200-203) is taken for a given display type: it requires
the mode to be neither `'l'` nor `'n'`. -/
def oopsBranch (c : Char) : Bool :=
  if c = 'l' then false else if c = 'n' then false else true

theorem toggleDisplay_involutive (c : Char) :
    toggleDisplay (toggleDisplay c) = c := by
  unfold toggleDisplay
  by_cases h1 : c = 'n'
  · simp [h1]
  · by_cases h2 : c = 'l'
    · simp [h2]
    · simp [h1, h2]

/-! ## Spectral Estimator (`Noise`, source lines 54-90)

`get_amplitudes_at_frequency_ranges` records `int(0.5 * 16000) = 8000`
samples, computes `numpy.fft.rfft(recording[:, 0], n=16000)` (the block
zero-padded to 16000 points, giving 16000/2 + 1 = 8001 output bins), takes
squared magnitudes, and for each `(start, end)` range appends
`sqrt(mean(magnitude[start:end]))`.  The Python slice clamps both indices
to the array length.  (`numpy.mean` of an empty slice is NaN with a
warning; that degenerate case is modelled as `0/0 = 0` here and does not
arise for the program's ranges.) -/

/-- Sample rate in Hz (`Noise.__init__`, source line 55). -/
def sample_rate : ℕ := 16000

/-- Number of recorded samples: `int(duration * sample_rate)` (source line 84). -/
def nSamples : ℕ := 8000

/-- Length of the `rfft` output array: `n/2 + 1` bins. -/
def nBins : ℕ := sample_rate / 2 + 1

/-- Zero-padding of the recorded block to the 16000-point FFT input
(the `n=self.sample_rate` argument of `numpy.fft.rfft`). -/
def padBlock (x : Fin nSamples → ℝ) : ℕ → ℝ :=
  fun j => if h : j < nSamples then x ⟨j, h⟩ else 0

/-- Bin `k` of the discrete Fourier transform of the padded block. -/
noncomputable def dftBin (x : ℕ → ℝ) (k : ℕ) : ℂ :=
  ∑ j in Finset.range sample_rate,
    (x j : ℂ) * Complex.exp (-(2 * Real.pi * Complex.I) * k * j / sample_rate)

/-- `numpy.square(numpy.abs(numpy.fft.rfft(...)))` at bin `k` (source line 74). -/
noncomputable def magnitude (x : ℕ → ℝ) (k : ℕ) : ℝ :=
  Complex.abs (dftBin x k) ^ 2

/-- `numpy.mean(a[s:e])` for an array of length `nBins`: Python slicing
clamps both indices to the array length. -/
noncomputable def sliceMean (f : ℕ → ℝ) (s e : ℕ) : ℝ :=
  (∑ k in Finset.Ico (min s nBins) (min e nBins), f k) /
    ((min e nBins - min s nBins : ℕ) : ℝ)

/-- `numpy.sqrt(numpy.mean(magnitude[start:end]))` for one range
(source line 78). -/
noncomputable def bandAmp (x : ℕ → ℝ) (r : ℤ × ℤ) : ℝ :=
  Real.sqrt (sliceMean (magnitude x) r.1.toNat r.2.toNat)

/-- `Noise.get_amplitudes_at_frequency_ranges` (source lines 67-79),
applied to a given recorded block instead of a live recording. -/
noncomputable def get_amplitudes_at_frequency_ranges
    (block : Fin nSamples → ℝ) (rs : List (ℤ × ℤ)) : List ℝ :=
  rs.map (bandAmp (padBlock block))

theorem padBlock_zero : padBlock (fun _ => 0) = fun _ => 0 := by
  funext j
  unfold padBlock
  split <;> rfl

theorem bandAmp_zero (r : ℤ × ℤ) : bandAmp (padBlock (fun _ => 0)) r = 0 := by
  unfold bandAmp sliceMean magnitude dftBin
  rw [padBlock_zero]
  simp

theorem ranges_eq : ranges =
    [(5656, 11296), (2828, 5648), (1414, 2824), (707, 1412),
     (354, 706), (177, 353), (88, 176), (45, 89)] := by
  have h1 : Int.fract ((707:ℚ)/4) = 3/4 := by
    rw [Int.fract_eq_iff]
    refine ⟨by norm_num, by norm_num, 176, by norm_num⟩
  have h2 : Int.fract ((353:ℚ)/2) = 1/2 := by
    rw [Int.fract_eq_iff]
    refine ⟨by norm_num, by norm_num, 176, by norm_num⟩
  have h3 : Int.fract ((44541:ℚ)/1000) = 541/1000 := by
    rw [Int.fract_eq_iff]
    refine ⟨by norm_num, by norm_num, 44, by norm_num⟩
  have h4 : Int.fract ((22239:ℚ)/250) = 239/250 := by
    rw [Int.fract_eq_iff]
    refine ⟨by norm_num, by norm_num, 88, by norm_num⟩
  norm_num [ranges, bands, pyRoundQ, lower_multiplier, upper_multiplier,
    Int.floor_eq_iff, h1, h2, h3, h4]

theorem step_trigger (st : MeterState) (p : ℤ) (t : ℝ)
    (hp : 1500 < p) (ht : delay < t - st.last_page) :
    step st p t = ⟨toggleDisplay st.display_type, t⟩ := by
  unfold step
  rw [if_pos ⟨hp, ht⟩]

theorem step_no_trigger (st : MeterState) (p : ℤ) (t : ℝ)
    (h : ¬(1500 < p ∧ delay < t - st.last_page)) :
    step st p t = st := by
  unfold step
  rw [if_neg h]

theorem step_display_cases (st : MeterState) (p : ℤ) (t : ℝ)
    (h : st.display_type = 'n' ∨ st.display_type = 'l') :
    (step st p t).display_type = 'n' ∨ (step st p t).display_type = 'l' := by
  unfold step
  split
  · show toggleDisplay st.display_type = 'n' ∨ toggleDisplay st.display_type = 'l'
    rcases h with h | h <;> rw [h] <;> decide
  · exact h

theorem runTrace_display_cases (events : List (ℤ × ℝ)) :
    ∀ st : MeterState, (st.display_type = 'n' ∨ st.display_type = 'l') →
      ((runTrace st events).display_type = 'n'
        ∨ (runTrace st events).display_type = 'l') := by
  induction events with
  | nil => intro st h; exact h
  | cons e rest ih =>
      intro st h
      exact ih (step st e.1 e.2) (step_display_cases st e.1 e.2 h)

theorem barValueLog2_clamp (w : ℕ) (s : ℝ) (h0 : 0 < s) (h1 : s ≤ 1) :
    barValueLog2 w s = some 0 := by
  unfold barValueLog2 mathLog2
  rw [if_pos h0, Option.map_some']
  have hle : Real.logb 2 s ≤ 0 := Real.logb_nonpos one_lt_two (le_of_lt h0) h1
  have hmax : max (0:ℝ) (Real.logb 2 s) = 0 := max_eq_left hle
  rw [hmax, zero_mul, zero_div, mul_zero, round2_zero]

/-! ## Claims -/

/-- Claim C8: for every centre frequency in {63, 125, 250, 500, 1000,
2000, 4000, 8000}, the derived range satisfies
`round(c * 0.707) < round(c * 1.412)`, and both the start and the end bin
indices are monotonically non-decreasing as the centre frequency
increases (the source's `bands` list is highest-first, so the ascending
order is its reverse). -/
theorem C8_range_bounds :
    (∀ r ∈ ranges, r.1 < r.2)
    ∧ List.Chain' (· ≤ ·) (ranges.reverse.map Prod.fst)
    ∧ List.Chain' (· ≤ ·) (ranges.reverse.map Prod.snd) := by
  rw [ranges_eq]
  refine ⟨by decide, by norm_num [List.chain'_cons], by norm_num [List.chain'_cons]⟩

/-- Claim C7: the program's 8 fixed frequency ranges each have
`start < end`, and the spectral estimator applied to an all-zero audio
block returns the all-zero band-energy vector (the square root of the
mean of an all-zero power-spectrum slice is 0 for each band). -/
theorem C7_zero_block :
    (∀ r ∈ ranges, r.1 < r.2)
    ∧ get_amplitudes_at_frequency_ranges (fun _ => 0) ranges = List.replicate 8 0 := by
  constructor
  · rw [ranges_eq]
    decide
  · unfold get_amplitudes_at_frequency_ranges
    rw [List.eq_replicate_iff]
    constructor
    · rw [List.length_map, ranges_eq]
      rfl
    · intro b hb
      rcases List.mem_map.mp hb with ⟨r, _, rfl⟩
      exact bandAmp_zero r

/-- Claim C3: for every band-energy vector and weight vector of length 8
and every index `i`, the band weighter returns
`round(2 * energies[i] * weights[i], 2)`; as a function it is
deterministic and side-effect free by construction. -/
theorem C3_band_weighter (e ws : Fin 8 → ℝ) (i : Fin 8) :
    weighted_amps e ws i = round2 (2 * e i * ws i) := by
  unfold weighted_amps
  exact congrArg round2 (by ring)

/-- Claim C9: the band weighter is elementwise-linear up to rounding —
scaling the energies by `k ≥ 0` changes each output by at most the
rounding tolerance `(1 + k)/200` (each output is rounded to 2 decimal
places, so each side carries at most half a unit in the last place,
i.e. `1/200`, with the scaled side's error magnified by `k`). -/
theorem C9_weight_linearity (k : ℝ) (hk : 0 ≤ k) (e ws : Fin 8 → ℝ) (i : Fin 8) :
    |weighted_amps (fun j => k * e j) ws i - k * weighted_amps e ws i|
      ≤ (1 + k) / 200 := by
  unfold weighted_amps
  have hkx : 2 * (k * e i * ws i) = k * (2 * (e i * ws i)) := by ring
  rw [hkx]
  set x := 2 * (e i * ws i) with hx
  have h1 : |round2 (k * x) - k * x| ≤ 1/200 := abs_round2_sub (k * x)
  have h2 : |round2 x - x| ≤ 1/200 := abs_round2_sub x
  have h4 : |x - round2 x| ≤ 1/200 := by rw [abs_sub_comm]; exact h2
  have h3 : |k * x - k * round2 x| = k * |x - round2 x| := by
    rw [← mul_sub, abs_mul, abs_of_nonneg hk]
  calc |round2 (k * x) - k * round2 x|
      ≤ |round2 (k * x) - k * x| + |k * x - k * round2 x| := abs_sub_le _ _ _
    _ ≤ 1/200 + k * (1/200) := by
        rw [h3]
        have h5 := mul_le_mul_of_nonneg_left h4 hk
        linarith
    _ = (1 + k) / 200 := by ring

/-- Concrete unit vector used by witnesses. -/
noncomputable def onesVec : Fin 8 → ℝ := fun _ => 1

/-- Witness for C9 at `k = 2` on the unit vectors. -/
theorem C9_weight_linearity_witness :
    (0:ℝ) ≤ 2
    ∧ |weighted_amps (fun j => 2 * onesVec j) onesVec 0
        - 2 * weighted_amps onesVec onesVec 0| ≤ (1 + 2) / 200 :=
  ⟨by norm_num, C9_weight_linearity 2 (by norm_num) onesVec onesVec 0⟩

/-- Claim C5: the LINEAR scale mapping is monotonically non-decreasing in
the amplitude, returns exactly the full width `w` at
`amplitude = max_spl`, and is unbounded above (no clipping at the
mapping stage). -/
theorem C5_linear_mapping (w : ℕ) (hw : 0 < w) :
    Monotone (barValueLinear w)
    ∧ barValueLinear w (max_spl : ℝ) = (w : ℝ)
    ∧ ∀ B : ℝ, ∃ s : ℝ, B < barValueLinear w s := by
  have h450 : ((max_spl : ℕ) : ℝ) = 450 := by norm_num [max_spl]
  refine ⟨?_, ?_, ?_⟩
  · intro a b hab
    unfold barValueLinear
    apply round2_mono
    rw [h450]
    gcongr
  · unfold barValueLinear
    rw [h450]
    norm_num
    exact round2_natCast w
  · intro B
    refine ⟨(max_spl : ℝ) * ((⌈B⌉ : ℝ) + 1) / (w : ℝ), ?_⟩
    unfold barValueLinear
    have hwne : ((w : ℕ) : ℝ) ≠ 0 := by
      have : (0:ℝ) < (w : ℝ) := by exact_mod_cast hw
      linarith
    have hmne : ((max_spl : ℕ) : ℝ) ≠ 0 := by rw [h450]; norm_num
    have harg : (w : ℝ) * (((max_spl : ℝ) * ((⌈B⌉ : ℝ) + 1) / (w : ℝ)) / (max_spl : ℝ))
        = ((⌈B⌉ + 1 : ℤ) : ℝ) := by
      push_cast
      field_simp
      ring
    rw [harg, round2_intCast]
    have h1 : B ≤ ((⌈B⌉ : ℤ) : ℝ) := Int.le_ceil B
    push_cast
    linarith

/-- Witness for C5 at the program's width `w = disp.width - l_margin
= 160 - 29 = 131`. -/
theorem C5_linear_mapping_witness :
    0 < 131
    ∧ barValueLinear 131 (max_spl : ℝ) = ((131 : ℕ) : ℝ) :=
  ⟨by norm_num, (C5_linear_mapping 131 (by norm_num)).2.1⟩

/-- Claim C4 (amended): for every amplitude `a > 0` the LOG2 scale
mapping returns the 2-decimal rounding of
`w * (max 0 (log2 a) / log2 max_spl)`, and at `a = max_spl = 450` it
returns exactly the full width `w`; for `a ≤ 0` the mapping raises a
math domain error instead of returning a value (see the
counterexample). -/
theorem C4_log2_formula (w : ℕ) (a : ℝ) (ha : 0 < a) :
    barValueLog2 w a
      = some (round2 ((w : ℝ) * (max 0 (Real.logb 2 a) / Real.logb 2 (max_spl : ℝ))))
    ∧ barValueLog2 w (max_spl : ℝ) = some ((w : ℕ) : ℝ) := by
  have h450 : ((max_spl : ℕ) : ℝ) = 450 := by norm_num [max_spl]
  have hL : (0:ℝ) < Real.logb 2 (max_spl : ℝ) := by
    apply Real.logb_pos one_lt_two
    rw [h450]
    norm_num
  have hLne : Real.logb 2 (max_spl : ℝ) ≠ 0 := ne_of_gt hL
  constructor
  · unfold barValueLog2 mathLog2 log2_max_spl
    rw [if_pos ha, Option.map_some']
    congr 1
    congr 1
    field_simp
    ring
  · unfold barValueLog2 mathLog2 log2_max_spl
    rw [if_pos (by rw [h450]; norm_num : (0:ℝ) < (max_spl : ℝ)), Option.map_some']
    have hmax : max (0:ℝ) (Real.logb 2 (max_spl : ℝ)) = Real.logb 2 (max_spl : ℝ) :=
      max_eq_right (le_of_lt hL)
    rw [hmax]
    have hone : Real.logb 2 (max_spl : ℝ) * (100 / Real.logb 2 (max_spl : ℝ)) / 100 = 1 := by
      field_simp
    rw [hone, mul_one, round2_natCast]

/-- Counterexample for C4 as stated: at amplitude `-1` the log2 mapping
returns nothing at all (the source raises `ValueError` from
`math.log`), rather than the claimed formula value. -/
theorem C4_log2_formula_counterexample : barValueLog2 131 (-1) = none := by
  unfold barValueLog2 mathLog2
  rw [if_neg (by norm_num)]
  rfl

/-- Witness for C4 at `w = 131`, `a = max_spl`. -/
theorem C4_log2_formula_witness :
    (0:ℝ) < (max_spl : ℝ)
    ∧ barValueLog2 131 (max_spl : ℝ) = some ((131 : ℕ) : ℝ) :=
  ⟨by norm_num [max_spl],
   (C4_log2_formula 131 (max_spl : ℝ) (by norm_num [max_spl])).2⟩

/-- Claim C1 (code bug): the claim — and §4.4/§7 of the spec — require
the log argument to be clamped *before* `log2` is computed so that any
amplitude `≤ 0` yields pixel width 0 without a numeric domain error.
The source instead computes `max(0, math.log(s, 2))`, clamping *after*
the log, so amplitude 0 (reachable: a silent block gives weighted
amplitude 0.0) raises `ValueError` (modelled as `none`); only amplitudes
in `(0, 1]` are clamped to width 0 as claimed. -/
theorem C1_log2_domain_error :
    barValueLog2 131 0 = none
    ∧ barValueLog2 131 1 = some 0
    ∧ barValueLog2 131 (1/2) = some 0 := by
  refine ⟨?_, barValueLog2_clamp 131 1 one_pos le_rfl,
    barValueLog2_clamp 131 (1/2) (by norm_num) (by norm_num)⟩
  unfold barValueLog2 mathLog2
  rw [if_neg (by norm_num)]
  rfl

/-- Claim C2 (amended): the mode controller toggles exactly when the
proximity reading exceeds 1500 AND strictly more than `delay = 0.5`
seconds have elapsed since the last accepted transition, recording the
transition time on acceptance; a second above-threshold spike within the
debounce window of an accepted transition produces no second transition,
while a second spike more than `delay` later produces a second
transition, returning the mode to its original value. -/
theorem C2_debounce (st : MeterState) (q p₁ p₂ : ℤ) (u t₁ t₂ : ℝ)
    (hmode : st.display_type = 'n' ∨ st.display_type = 'l')
    (hp₁ : 1500 < p₁) (ht₁ : delay < t₁ - st.last_page) :
    ((step st q u).display_type ≠ st.display_type
      ↔ (1500 < q ∧ delay < u - st.last_page))
    ∧ (step st p₁ t₁).display_type = toggleDisplay st.display_type
    ∧ (step st p₁ t₁).last_page = t₁
    ∧ (t₂ - t₁ ≤ delay → step (step st p₁ t₁) p₂ t₂ = step st p₁ t₁)
    ∧ (delay < t₂ - t₁ → 1500 < p₂ →
        (step (step st p₁ t₁) p₂ t₂).display_type = st.display_type) := by
  have hstep1 : step st p₁ t₁ = ⟨toggleDisplay st.display_type, t₁⟩ :=
    step_trigger st p₁ t₁ hp₁ ht₁
  have htog : toggleDisplay st.display_type ≠ st.display_type := by
    rcases hmode with h | h <;> rw [h] <;> decide
  refine ⟨⟨?_, ?_⟩, by rw [hstep1], by rw [hstep1], ?_, ?_⟩
  · intro hne
    by_contra hc
    rw [step_no_trigger st q u hc] at hne
    exact hne rfl
  · intro hcond
    unfold step
    rw [if_pos hcond]
    exact htog
  · intro hle
    rw [hstep1]
    apply step_no_trigger
    rintro ⟨-, h2⟩
    change delay < t₂ - t₁ at h2
    linarith
  · intro hgt hp₂
    rw [hstep1]
    rw [step_trigger _ p₂ t₂ hp₂ (by simpa using hgt)]
    exact toggleDisplay_involutive st.display_type

/-- Counterexample for C2 as stated: a tap of proximity 2000 arriving
exactly `0.5` seconds after the last accepted transition ("at least
0.5 s have elapsed") does NOT toggle the mode — the source requires
strictly more than `delay` seconds. -/
theorem C2_debounce_counterexample :
    1500 < (2000 : ℤ)
    ∧ delay ≤ (1:ℝ) - (MeterState.mk 'n' (1/2)).last_page
    ∧ (step ⟨'n', 1/2⟩ 2000 1).display_type = 'n' := by
  refine ⟨by norm_num, ?_, ?_⟩
  · show delay ≤ (1:ℝ) - 1/2
    unfold delay
    norm_num
  · have h : step (⟨'n', 1/2⟩ : MeterState) 2000 1 = ⟨'n', 1/2⟩ := by
      apply step_no_trigger
      rintro ⟨-, h2⟩
      change delay < (1:ℝ) - 1/2 at h2
      unfold delay at h2
      norm_num at h2
    rw [h]

/-- Witness for C2: from the initial state, a first tap at `t = 1` is
accepted, and a second tap at `t = 5/4` (within the window) changes
nothing, while one at `t = 2` toggles back to `'n'`. -/
theorem C2_debounce_witness :
    ((initState.display_type = 'n' ∨ initState.display_type = 'l')
      ∧ 1500 < (2000 : ℤ) ∧ delay < (1:ℝ) - initState.last_page)
    ∧ step (step initState 2000 1) 1600 (5/4) = step initState 2000 1
    ∧ (step (step initState 2000 1) 1600 2).display_type = initState.display_type :=
  ⟨⟨Or.inl rfl, by norm_num,
     by show delay < (1:ℝ) - 0; unfold delay; norm_num⟩,
   (C2_debounce initState 1700 2000 1600 0 1 (5/4) (Or.inl rfl) (by norm_num)
      (by show delay < (1:ℝ) - 0; unfold delay; norm_num)).2.2.2.1
     (by unfold delay; norm_num),
   (C2_debounce initState 1700 2000 1600 0 1 2 (Or.inl rfl) (by norm_num)
      (by show delay < (1:ℝ) - 0; unfold delay; norm_num)).2.2.2.2
     (by unfold delay; norm_num) (by norm_num)⟩

/-- Claim C6: starting from the initial mode `'n'` with the debounced
toggle as the only mutation, every reachable display mode is `'n'` or
`'l'`, so the "Oops" error branch of the display dispatch is never
taken. -/
theorem C6_mode_invariant (events : List (ℤ × ℝ)) :
    ((runTrace initState events).display_type = 'n'
      ∨ (runTrace initState events).display_type = 'l')
    ∧ oopsBranch (runTrace initState events).display_type = false := by
  have h := runTrace_display_cases events initState (Or.inl rfl)
  refine ⟨h, ?_⟩
  rcases h with h | h <;> rw [h] <;> decide

/-- Claim C10: `last_page` is initialised to 0 while the debounce window
is `delay = 0.5` s, so at any clock reading greater than `delay`
(`time.time()` is seconds since the epoch, vastly larger) the very first
above-threshold proximity reading is accepted and toggles the mode
immediately, recording the transition time. -/
theorem C10_first_tap (p : ℤ) (t : ℝ) (hp : 1500 < p) (ht : delay < t) :
    step initState p t = ⟨'l', t⟩ := by
  have h : step initState p t = ⟨toggleDisplay initState.display_type, t⟩ := by
    apply step_trigger initState p t hp
    show delay < t - (0:ℝ)
    simpa using ht
  rw [h]
  simp [initState, toggleDisplay]

/-- Witness for C10: proximity 2000 at epoch time 1000. -/
theorem C10_first_tap_witness :
    (1500 < (2000 : ℤ) ∧ delay < (1000 : ℝ))
    ∧ step initState 2000 1000 = ⟨'l', 1000⟩ :=
  ⟨⟨by norm_num, by unfold delay; norm_num⟩,
   C10_first_tap 2000 1000 (by norm_num) (by unfold delay; norm_num)⟩

end SplMeter
